import Mathlib

/-!
Shallow embedding of `src/algo_strategy.py` (a Terminal-style tower-defense
turn agent) and verification of its specification.

The agent keeps three mutable fields across turns (`AgentState`); each turn it
receives an engine snapshot, adjusts its batch threshold based on the outcome
of the previous attack, rebuilds its static defense plan, and possibly deploys
a batch of pings.  The engine is external: the snapshot exposes scalar queries
(`enemy_health`, `bits`) and a legality oracle `can_spawn`; mutating calls
(`attempt_spawn`) are modelled as emitted `Command`s.  Debug logging is
side-effect-only and omitted.
-/

namespace TerminalAlgo

/-- The six engine unit types resolved in `on_game_start` from the config
(`FILTER`, `ENCRYPTOR`, `DESTRUCTOR`, `PING`, `EMP`, `SCRAMBLER`). -/
inductive UnitType where
  | filter
  | encryptor
  | destructor
  | ping
  | emp
  | scrambler
deriving DecidableEq, Repr

/-- A board coordinate `[x, y]`. -/
abbrev Coord := Nat × Nat

/-- A mutating call issued to the engine: `attempt_spawn(unit, loc, num)`. -/
inductive Command where
  | spawn (u : UnitType) (loc : Coord) (num : Nat)
deriving DecidableEq, Repr

/-- The per-turn engine snapshot (`gamelib.GameState`): scalar queries and the
external legality oracle `can_spawn(unit, loc, num)`.  Resource and health
values come from the engine as numbers; we model them as rationals. -/
structure Snapshot where
  enemy_health : ℚ
  bits : ℚ
  can_spawn : UnitType → Coord → Nat → Bool

/-- The agent's mutable cross-turn memory, set up in `on_game_start`:
`self.batch_ping_num`, `self.sent_pings_last_round`,
`self.enemy_health_before_attack`. -/
structure AgentState where
  batch_ping_num : Nat
  sent_pings_last_round : Bool
  enemy_health_before_attack : ℚ
deriving DecidableEq, Repr

/-- `BATCH_PINGS_NUM_CAP = 24`: hoarding more than 24 bits is wasteful since
25% of bits are lost every round. -/
def BATCH_PINGS_NUM_CAP : Nat := 24

/-- The `AgentState` produced by `on_game_start`: threshold 10, no attack sent
last round, enemy health baseline 30. -/
def initState : AgentState :=
  { batch_ping_num := 10
    sent_pings_last_round := false
    enemy_health_before_attack := 30 }

/-- `AlgoStrategy.check_last_attack`: if pings were sent last round and the
enemy's health did not drop below the recorded baseline, add 4 to the batch
threshold; in all cases clear `sent_pings_last_round`. -/
def check_last_attack (s : AgentState) (snap : Snapshot) : AgentState :=
  let s1 :=
    if s.sent_pings_last_round then
      if snap.enemy_health ≥ s.enemy_health_before_attack then
        { s with batch_ping_num := s.batch_ping_num + 4 }
      else s
    else s
  { s1 with sent_pings_last_round := false }

/-- The funnel wall coordinates of `build_base`. -/
def funnel_walls : List Coord :=
  [(0, 13), (1, 13), (2, 13), (3, 13), (24, 13), (25, 13), (26, 13),
   (27, 13), (4, 12), (23, 12), (5, 11), (22, 11), (6, 10), (21, 10),
   (7, 9), (20, 9), (8, 8), (19, 8), (9, 7), (10, 7), (11, 7),
   (12, 7), (15, 7), (16, 7), (17, 7), (18, 7)]

/-- The basic destructor coordinates of `build_base`. -/
def basic_destructors : List Coord :=
  [(12, 6), (15, 6), (12, 5), (15, 5), (12, 4), (15, 4), (3, 12), (24, 12)]

/-- The bottom encryptor coordinates of `build_base`. -/
def bottom_encryptors : List Coord :=
  [(12, 3), (15, 3), (12, 2), (15, 2)]

/-- The wing destructor coordinates of `build_base`. -/
def wing_destructors : List Coord :=
  [(5, 10), (22, 10), (7, 8), (20, 8), (9, 6), (18, 6), (1, 12), (26, 12)]

/-- One placement loop of `build_base`/`deploy_attackers`:
`for loc in locs: if can_spawn(u, loc): attempt_spawn(u, loc)`
(both calls default to quantity 1). -/
def spawnLoop (snap : Snapshot) (u : UnitType) : List Coord → List Command
  | [] => []
  | loc :: rest =>
      (if snap.can_spawn u loc 1 then [Command.spawn u loc 1] else [])
        ++ spawnLoop snap u rest

/-- `AlgoStrategy.build_base`: walk the four static coordinate lists in order
(funnel walls, basic destructors, bottom encryptors, wing destructors),
spawning the role's unit type wherever the engine's legality check allows.
The method reads no mutable agent field and writes none, so the agent state
passes through unchanged. -/
def build_base (s : AgentState) (snap : Snapshot) : AgentState × List Command :=
  (s, spawnLoop snap .filter funnel_walls
      ++ spawnLoop snap .destructor basic_destructors
      ++ spawnLoop snap .encryptor bottom_encryptors
      ++ spawnLoop snap .destructor wing_destructors)

/-- The two scrambler deployment coordinates of `deploy_attackers`. -/
def scramblers : List Coord := [(13, 0), (14, 0)]

/-- The two candidate ping deployment coordinates of `deploy_attackers`. -/
def pings : List Coord := [(13, 0), (14, 0)]

/-- `pings[random.randint(0, 1)]`: the deployment spot picked by the random
index `r`. -/
def deployLoc (r : Fin 2) : Coord := pings.get ⟨r.1, r.2⟩

/-- `AlgoStrategy.deploy_attackers`: first try to spawn a scrambler at each of
the two sweeper spots; then, with the batch size capped at
`BATCH_PINGS_NUM_CAP`, if the available bits meet the capped threshold, record
the enemy's health as the new baseline, set the sent flag, pick one of the two
ping spots (`random.randint(0, 1)` is modelled by the parameter `r`), and
spawn the batch there if the engine's legality check allows the full
quantity. -/
def deploy_attackers (s : AgentState) (snap : Snapshot) (r : Fin 2) :
    AgentState × List Command :=
  let scrCmds := spawnLoop snap .scrambler scramblers
  let cur_batch_num := min s.batch_ping_num BATCH_PINGS_NUM_CAP
  if snap.bits ≥ (cur_batch_num : ℚ) then
    let s1 := { s with
      enemy_health_before_attack := snap.enemy_health
      sent_pings_last_round := true }
    let deploy_loc := deployLoc r
    let pingCmds :=
      if snap.can_spawn .ping deploy_loc cur_batch_num then
        [Command.spawn .ping deploy_loc cur_batch_num]
      else []
    (s1, scrCmds ++ pingCmds)
  else (s, scrCmds)

/-- `AlgoStrategy.battle_strategy`, the per-turn pass run by `on_turn`:
check the last attack, build the base, deploy attackers; the turn's commands
are the concatenation in program order. -/
def battle_strategy (s : AgentState) (snap : Snapshot) (r : Fin 2) :
    AgentState × List Command :=
  let s1 := check_last_attack s snap
  let b := build_base s1 snap
  let d := deploy_attackers b.1 snap r
  (d.1, b.2 ++ d.2)

/-- Session states reachable from `on_game_start` by running whole turns. -/
inductive Reachable : AgentState → Prop where
  | init : Reachable initState
  | step (s : AgentState) (snap : Snapshot) (r : Fin 2) :
      Reachable s → Reachable (battle_strategy s snap r).1

/-- The defense-maintenance pass as the spec words it: each plan category is
filtered by the external legality check and emits the role-appropriate
placement, categories in the fixed order funnel, core blockers, boosters,
wings. -/
def build_base_spec (snap : Snapshot) : List Command :=
  (funnel_walls.filterMap fun loc =>
    if snap.can_spawn .filter loc 1 then some (Command.spawn .filter loc 1) else none) ++
  (basic_destructors.filterMap fun loc =>
    if snap.can_spawn .destructor loc 1 then some (Command.spawn .destructor loc 1) else none) ++
  (bottom_encryptors.filterMap fun loc =>
    if snap.can_spawn .encryptor loc 1 then some (Command.spawn .encryptor loc 1) else none) ++
  (wing_destructors.filterMap fun loc =>
    if snap.can_spawn .destructor loc 1 then some (Command.spawn .destructor loc 1) else none)

theorem spawnLoop_eq_filterMap (snap : Snapshot) (u : UnitType) (locs : List Coord) :
    spawnLoop snap u locs = locs.filterMap
      (fun loc => if snap.can_spawn u loc 1 then some (Command.spawn u loc 1) else none) := by
  induction locs with
  | nil => rfl
  | cons loc rest ih =>
    simp only [spawnLoop, List.filterMap_cons, ih]
    split <;> simp

theorem mem_spawnLoop (snap : Snapshot) (u : UnitType) (locs : List Coord) (c : Command) :
    c ∈ spawnLoop snap u locs ↔
      ∃ loc ∈ locs, c = Command.spawn u loc 1 ∧ snap.can_spawn u loc 1 = true := by
  rw [spawnLoop_eq_filterMap]
  simp only [List.mem_filterMap]
  constructor
  · rintro ⟨loc, hloc, hsome⟩
    split at hsome
    · exact ⟨loc, hloc, (Option.some_inj.mp hsome).symm, by assumption⟩
    · exact absurd hsome (by simp)
  · rintro ⟨loc, hloc, rfl, hcan⟩
    exact ⟨loc, hloc, by simp [hcan]⟩

theorem spawnLoop_eq_nil (snap : Snapshot) (u : UnitType) (locs : List Coord)
    (h : ∀ loc ∈ locs, snap.can_spawn u loc 1 = false) :
    spawnLoop snap u locs = [] := by
  induction locs with
  | nil => rfl
  | cons loc rest ih =>
    simp only [spawnLoop, h loc (List.mem_cons_self loc rest)]
    exact ih fun l hl => h l (List.mem_cons_of_mem loc hl)

/-- C1: after the attack-outcome check, if an attack was issued last turn and
the opponent's current health is equal to or higher than the recorded
pre-attack baseline, the batch-size threshold increases by exactly 4; if an
attack was issued and opponent health strictly decreased, the threshold is
unchanged; and in every case the issued-flag is cleared. -/
theorem check_last_attack_outcome (s : AgentState) (snap : Snapshot) :
    (s.sent_pings_last_round = true →
      snap.enemy_health ≥ s.enemy_health_before_attack →
      (check_last_attack s snap).batch_ping_num = s.batch_ping_num + 4) ∧
    (s.sent_pings_last_round = true →
      snap.enemy_health < s.enemy_health_before_attack →
      (check_last_attack s snap).batch_ping_num = s.batch_ping_num) ∧
    (check_last_attack s snap).sent_pings_last_round = false := by
  refine ⟨fun hf hge => ?_, fun hf hlt => ?_, ?_⟩
  · simp [check_last_attack, hf, hge]
  · simp [check_last_attack, hf, not_le.mpr hlt]
  · by_cases hf : s.sent_pings_last_round <;>
      by_cases hge : snap.enemy_health ≥ s.enemy_health_before_attack <;>
      simp [check_last_attack, hf, hge]

/-- Witness for C1, the spec's concrete scenario: issued-flag true,
threshold 10, baseline 30, current opponent health 30 — the threshold
becomes 10 + 4 = 14 and the flag resets to false. -/
theorem check_last_attack_outcome_witness :
    (check_last_attack ⟨10, true, 30⟩ ⟨30, 0, fun _ _ _ => false⟩).batch_ping_num = 10 + 4 ∧
    (check_last_attack ⟨10, true, 30⟩ ⟨30, 0, fun _ _ _ => false⟩).sent_pings_last_round = false :=
  ⟨(check_last_attack_outcome ⟨10, true, 30⟩ ⟨30, 0, fun _ _ _ => false⟩).1 rfl (by decide),
   (check_last_attack_outcome ⟨10, true, 30⟩ ⟨30, 0, fun _ _ _ => false⟩).2.2⟩

/-- C2: when no attack was issued the previous turn, the attack-outcome check
leaves the batch-size threshold unchanged. -/
theorem check_last_attack_frame (s : AgentState) (snap : Snapshot)
    (h : s.sent_pings_last_round = false) :
    (check_last_attack s snap).batch_ping_num = s.batch_ping_num := by
  simp [check_last_attack, h]

/-- Witness for C2 at a concrete state with the issued-flag false. -/
theorem check_last_attack_frame_witness :
    (check_last_attack ⟨10, false, 30⟩ ⟨30, 0, fun _ _ _ => false⟩).batch_ping_num = 10 :=
  check_last_attack_frame ⟨10, false, 30⟩ ⟨30, 0, fun _ _ _ => false⟩ rfl

/-- Scrambler deployments never produce a ping command: the unit type differs. -/
theorem ping_not_mem_scramblerLoop (snap : Snapshot) (loc : Coord) (n : Nat) :
    Command.spawn .ping loc n ∉ spawnLoop snap .scrambler scramblers := by
  intro hmem
  rcases (mem_spawnLoop _ _ _ _).mp hmem with ⟨l, -, heq, -⟩
  exact absurd heq (by simp)

/-- The randomly chosen deployment spot is one of the two candidates. -/
theorem deployLoc_mem (r : Fin 2) : deployLoc r ∈ pings :=
  List.get_mem pings r.1 r.2

/-- C3: with threshold 10, cap 24 and 10 available bits, provided the engine's
legality check allows 10 pings at the candidate spots, the batch-attack step
issues a deployment command for quantity 10 of the ping type at one of the two
designated coordinates, records the opponent's current health as the new
baseline, and sets the issued-flag. -/
theorem deploy_attackers_positive (s : AgentState) (snap : Snapshot) (r : Fin 2)
    (hthr : s.batch_ping_num = 10) (hbits : snap.bits = 10)
    (hleg : ∀ loc ∈ pings, snap.can_spawn .ping loc 10 = true) :
    ∃ loc ∈ pings,
      Command.spawn .ping loc 10 ∈ (deploy_attackers s snap r).2 ∧
      (deploy_attackers s snap r).1.enemy_health_before_attack = snap.enemy_health ∧
      (deploy_attackers s snap r).1.sent_pings_last_round = true := by
  have hcur : min s.batch_ping_num BATCH_PINGS_NUM_CAP = 10 := by
    rw [hthr]; decide
  have hcan := hleg (deployLoc r) (deployLoc_mem r)
  refine ⟨deployLoc r, deployLoc_mem r, ?_⟩
  simp only [deploy_attackers, hcur]
  rw [if_pos (show snap.bits ≥ ((10 : ℕ) : ℚ) by rw [hbits]; norm_num)]
  simp [hcan]

/-- Witness for C3 at the initial state with 10 bits and a fully permissive
legality oracle. -/
theorem deploy_attackers_positive_witness :
    ∃ loc ∈ pings,
      Command.spawn .ping loc 10 ∈
        (deploy_attackers initState ⟨30, 10, fun _ _ _ => true⟩ 0).2 ∧
      (deploy_attackers initState ⟨30, 10, fun _ _ _ => true⟩ 0).1.enemy_health_before_attack =
        (30 : ℚ) ∧
      (deploy_attackers initState ⟨30, 10, fun _ _ _ => true⟩ 0).1.sent_pings_last_round = true :=
  deploy_attackers_positive initState ⟨30, 10, fun _ _ _ => true⟩ 0 rfl rfl (by decide)

/-- C4: whenever the available bits meet the capped threshold, the deployment
step records the opponent's current health as the new baseline and sets the
issued-flag (even when no command is issued), and a ping deployment command is
issued exactly when the legality check confirms the full capped quantity is
deployable at the randomly chosen coordinate. -/
theorem deploy_attackers_threshold_met (s : AgentState) (snap : Snapshot) (r : Fin 2)
    (h : snap.bits ≥ ((min s.batch_ping_num BATCH_PINGS_NUM_CAP : ℕ) : ℚ)) :
    (deploy_attackers s snap r).1 =
      { s with enemy_health_before_attack := snap.enemy_health,
               sent_pings_last_round := true } ∧
    ((∃ loc n, Command.spawn .ping loc n ∈ (deploy_attackers s snap r).2) ↔
      snap.can_spawn .ping (deployLoc r)
        (min s.batch_ping_num BATCH_PINGS_NUM_CAP) = true) := by
  refine ⟨?_, ?_, ?_⟩
  · simp only [deploy_attackers, if_pos h]
  · rintro ⟨loc, n, hmem⟩
    simp only [deploy_attackers, if_pos h] at hmem
    rcases List.mem_append.mp hmem with hscr | hping
    · exact absurd hscr (ping_not_mem_scramblerLoop snap loc n)
    · by_cases hcan : snap.can_spawn .ping (deployLoc r)
        (min s.batch_ping_num BATCH_PINGS_NUM_CAP) = true
      · exact hcan
      · rw [if_neg hcan] at hping
        exact absurd hping (List.not_mem_nil _)
  · intro hcan
    refine ⟨deployLoc r, min s.batch_ping_num BATCH_PINGS_NUM_CAP, ?_⟩
    simp only [deploy_attackers, if_pos h, if_pos hcan]
    simp

/-- Witness for C4 at the initial state with 25 bits and a legality oracle
that refuses every spawn: the baseline and flag are still updated and no ping
command is issued. -/
theorem deploy_attackers_threshold_met_witness :
    (deploy_attackers initState ⟨30, 25, fun _ _ _ => false⟩ 0).1 =
      { initState with enemy_health_before_attack := (30 : ℚ),
                       sent_pings_last_round := true } ∧
    ((∃ loc n, Command.spawn .ping loc n ∈
        (deploy_attackers initState ⟨30, 25, fun _ _ _ => false⟩ 0).2) ↔
      Snapshot.can_spawn ⟨30, 25, fun _ _ _ => false⟩ .ping (deployLoc 0)
        (min initState.batch_ping_num BATCH_PINGS_NUM_CAP) = true) :=
  deploy_attackers_threshold_met initState ⟨30, 25, fun _ _ _ => false⟩ 0 (by decide)

/-- C5: any ping deployment command issued by the batch-attack step carries
quantity `min batch_ping_num BATCH_PINGS_NUM_CAP`, and in particular never
more than 24. -/
theorem deploy_quantity_capped (s : AgentState) (snap : Snapshot) (r : Fin 2)
    (loc : Coord) (n : Nat)
    (h : Command.spawn .ping loc n ∈ (deploy_attackers s snap r).2) :
    n = min s.batch_ping_num BATCH_PINGS_NUM_CAP ∧ n ≤ 24 := by
  simp only [deploy_attackers] at h
  split at h
  · rcases List.mem_append.mp h with hscr | hping
    · exact absurd hscr (ping_not_mem_scramblerLoop snap loc n)
    · split at hping
      · have heq := List.mem_singleton.mp hping
        have hn : n = min s.batch_ping_num BATCH_PINGS_NUM_CAP := by
          injection heq with hu hl hq
        exact ⟨hn, hn ▸ min_le_right _ _⟩
      · exact absurd hping (List.not_mem_nil _)
  · exact absurd h (ping_not_mem_scramblerLoop snap loc n)

/-- Witness for C5: the concrete batch of 10 pings issued from the initial
state carries the capped quantity and is at most 24. -/
theorem deploy_quantity_capped_witness :
    10 = min initState.batch_ping_num BATCH_PINGS_NUM_CAP ∧ 10 ≤ 24 :=
  deploy_quantity_capped initState ⟨30, 10, fun _ _ _ => true⟩ 0 (13, 0) 10 (by decide)

/-- C6: when the available bits are strictly below the capped threshold, the
deployment step issues no ping deployment command and leaves the agent state
(baseline and issued-flag included) unchanged. -/
theorem deploy_attackers_below_threshold (s : AgentState) (snap : Snapshot) (r : Fin 2)
    (h : snap.bits < ((min s.batch_ping_num BATCH_PINGS_NUM_CAP : ℕ) : ℚ)) :
    (deploy_attackers s snap r).1 = s ∧
    ∀ loc n, Command.spawn .ping loc n ∉ (deploy_attackers s snap r).2 := by
  have hng : ¬(snap.bits ≥ ((min s.batch_ping_num BATCH_PINGS_NUM_CAP : ℕ) : ℚ)) :=
    not_le.mpr h
  refine ⟨?_, fun loc n hmem => ?_⟩
  · simp only [deploy_attackers, if_neg hng]
  · simp only [deploy_attackers, if_neg hng] at hmem
    exact absurd hmem (ping_not_mem_scramblerLoop snap loc n)

/-- Witness for C6, the spec's concrete scenario: 5 available bits against
threshold 10 — no ping deployment command, state unchanged. -/
theorem deploy_attackers_below_threshold_witness :
    (deploy_attackers initState ⟨30, 5, fun _ _ _ => true⟩ 0).1 = initState ∧
    ∀ loc n, Command.spawn .ping loc n ∉
      (deploy_attackers initState ⟨30, 5, fun _ _ _ => true⟩ 0).2 :=
  deploy_attackers_below_threshold initState ⟨30, 5, fun _ _ _ => true⟩ 0 (by decide)

/-- C7: the defense pass equals the spec's per-category legality filter in the
fixed order funnel walls, basic destructors, bottom encryptors, wing
destructors; a role-appropriate placement appears for a coordinate exactly
when the legality check passes there; nothing else is emitted and the agent
state passes through. -/
theorem build_base_correct (s : AgentState) (snap : Snapshot) :
    (build_base s snap).1 = s ∧
    (build_base s snap).2 = build_base_spec snap ∧
    (∀ loc, Command.spawn .filter loc 1 ∈ (build_base s snap).2 ↔
      loc ∈ funnel_walls ∧ snap.can_spawn .filter loc 1 = true) ∧
    (∀ loc, Command.spawn .destructor loc 1 ∈ (build_base s snap).2 ↔
      (loc ∈ basic_destructors ∨ loc ∈ wing_destructors) ∧
        snap.can_spawn .destructor loc 1 = true) ∧
    (∀ loc, Command.spawn .encryptor loc 1 ∈ (build_base s snap).2 ↔
      loc ∈ bottom_encryptors ∧ snap.can_spawn .encryptor loc 1 = true) ∧
    (∀ c ∈ (build_base s snap).2, ∃ u loc, c = Command.spawn u loc 1) := by
  refine ⟨rfl, ?_, ?_, ?_, ?_, ?_⟩
  · simp [build_base, spawnLoop_eq_filterMap, build_base_spec]
  · intro loc
    simp only [build_base, List.mem_append, mem_spawnLoop]
    constructor
    · rintro (((⟨l, hl, heq, hcan⟩ | ⟨l, hl, heq, hcan⟩) | ⟨l, hl, heq, hcan⟩) |
        ⟨l, hl, heq, hcan⟩) <;> simp at heq
      all_goals (subst heq; exact ⟨hl, hcan⟩)
    · rintro ⟨hl, hcan⟩
      exact Or.inl (Or.inl (Or.inl ⟨loc, hl, rfl, hcan⟩))
  · intro loc
    simp only [build_base, List.mem_append, mem_spawnLoop]
    constructor
    · rintro (((⟨l, hl, heq, hcan⟩ | ⟨l, hl, heq, hcan⟩) | ⟨l, hl, heq, hcan⟩) |
        ⟨l, hl, heq, hcan⟩) <;> simp at heq
      all_goals (subst heq; first
        | exact ⟨Or.inl hl, hcan⟩
        | exact ⟨Or.inr hl, hcan⟩)
    · rintro ⟨hl | hl, hcan⟩
      · exact Or.inl (Or.inl (Or.inr ⟨loc, hl, rfl, hcan⟩))
      · exact Or.inr ⟨loc, hl, rfl, hcan⟩
  · intro loc
    simp only [build_base, List.mem_append, mem_spawnLoop]
    constructor
    · rintro (((⟨l, hl, heq, hcan⟩ | ⟨l, hl, heq, hcan⟩) | ⟨l, hl, heq, hcan⟩) |
        ⟨l, hl, heq, hcan⟩) <;> simp at heq
      all_goals (subst heq; exact ⟨hl, hcan⟩)
    · rintro ⟨hl, hcan⟩
      exact Or.inl (Or.inr ⟨loc, hl, rfl, hcan⟩)
  · intro c hc
    simp only [build_base, List.mem_append, mem_spawnLoop] at hc
    rcases hc with (((⟨l, _, rfl, _⟩ | ⟨l, _, rfl, _⟩) | ⟨l, _, rfl, _⟩) |
      ⟨l, _, rfl, _⟩) <;> exact ⟨_, l, rfl⟩

/-- Witness for C7 at a concrete snapshot with a fully permissive legality
oracle. -/
theorem build_base_correct_witness :
    (build_base initState ⟨30, 10, fun _ _ _ => true⟩).1 = initState ∧
    (build_base initState ⟨30, 10, fun _ _ _ => true⟩).2 =
      build_base_spec ⟨30, 10, fun _ _ _ => true⟩ :=
  ⟨(build_base_correct initState ⟨30, 10, fun _ _ _ => true⟩).1,
   (build_base_correct initState ⟨30, 10, fun _ _ _ => true⟩).2.1⟩

/-- C8: on a board where the legality check refuses every cell of the static
plan (for example, a fully built base), the defense pass issues zero placement
commands and returns the agent state unchanged. -/
theorem build_base_idempotent (s : AgentState) (snap : Snapshot)
    (h1 : ∀ loc ∈ funnel_walls, snap.can_spawn .filter loc 1 = false)
    (h2 : ∀ loc ∈ basic_destructors, snap.can_spawn .destructor loc 1 = false)
    (h3 : ∀ loc ∈ bottom_encryptors, snap.can_spawn .encryptor loc 1 = false)
    (h4 : ∀ loc ∈ wing_destructors, snap.can_spawn .destructor loc 1 = false) :
    build_base s snap = (s, []) := by
  simp [build_base, spawnLoop_eq_nil snap .filter funnel_walls h1,
    spawnLoop_eq_nil snap .destructor basic_destructors h2,
    spawnLoop_eq_nil snap .encryptor bottom_encryptors h3,
    spawnLoop_eq_nil snap .destructor wing_destructors h4]

/-- Witness for C8 with a legality oracle that refuses everything. -/
theorem build_base_idempotent_witness :
    build_base initState ⟨30, 10, fun _ _ _ => false⟩ = (initState, []) :=
  build_base_idempotent initState ⟨30, 10, fun _ _ _ => false⟩
    (by decide) (by decide) (by decide) (by decide)

/-- C9: the agent's cross-turn memory is exactly the scalar `AgentState`
fields: the state a full turn hands to the next turn is a function of the old
state and the snapshot's scalar queries (opponent health and available bits)
alone — two snapshots agreeing on those scalars, whatever their board
occupancy and legality oracle, yield the same successor state. -/
theorem cross_turn_memory_scalar (s : AgentState) (snap1 snap2 : Snapshot) (r : Fin 2)
    (hh : snap1.enemy_health = snap2.enemy_health)
    (hb : snap1.bits = snap2.bits) :
    (battle_strategy s snap1 r).1 = (battle_strategy s snap2 r).1 := by
  have hc : check_last_attack s snap1 = check_last_attack s snap2 := by
    simp [check_last_attack, hh]
  simp only [battle_strategy, build_base, hc]
  simp only [deploy_attackers, hb, hh]
  split_ifs <;> rfl

/-- Witness for C9: two snapshots with equal scalars but opposite legality
oracles produce the same successor state. -/
theorem cross_turn_memory_scalar_witness :
    (battle_strategy initState ⟨30, 10, fun _ _ _ => true⟩ 0).1 =
    (battle_strategy initState ⟨30, 10, fun _ _ _ => false⟩ 0).1 :=
  cross_turn_memory_scalar initState ⟨30, 10, fun _ _ _ => true⟩
    ⟨30, 10, fun _ _ _ => false⟩ 0 rfl rfl

theorem deploy_preserves_batch (s : AgentState) (snap : Snapshot) (r : Fin 2) :
    (deploy_attackers s snap r).1.batch_ping_num = s.batch_ping_num := by
  simp only [deploy_attackers]
  split_ifs <;> rfl

theorem check_batch_cases (s : AgentState) (snap : Snapshot) :
    (check_last_attack s snap).batch_ping_num = s.batch_ping_num ∨
    (check_last_attack s snap).batch_ping_num = s.batch_ping_num + 4 := by
  simp only [check_last_attack]
  split_ifs <;> simp

theorem battle_state_eq (s : AgentState) (snap : Snapshot) (r : Fin 2) :
    (battle_strategy s snap r).1 =
      (deploy_attackers (check_last_attack s snap) snap r).1 := rfl

/-- C10: the batch threshold starts at 10 and only grows in steps of 4: every
reachable session state has threshold `10 + 4k`, hence at least 10, and no
turn ever decreases it — it is never reset, even after a successful attack. -/
theorem batch_threshold_invariant (s : AgentState) (h : Reachable s) :
    (∃ k, s.batch_ping_num = 10 + 4 * k) ∧
    ∀ (snap : Snapshot) (r : Fin 2),
      s.batch_ping_num ≤ (battle_strategy s snap r).1.batch_ping_num := by
  have mono : ∀ (t : AgentState) (snap : Snapshot) (r : Fin 2),
      t.batch_ping_num ≤ (battle_strategy t snap r).1.batch_ping_num := by
    intro t snap r
    rw [battle_state_eq, deploy_preserves_batch]
    rcases check_batch_cases t snap with hc | hc <;> omega
  refine ⟨?_, mono s⟩
  induction h with
  | init => exact ⟨0, rfl⟩
  | step t snap r ht ih =>
    rcases ih with ⟨k, hk⟩
    rw [battle_state_eq, deploy_preserves_batch]
    rcases check_batch_cases t snap with hc | hc
    · exact ⟨k, by omega⟩
    · exact ⟨k + 1, by omega⟩

/-- Witness for C10 at the initial session state. -/
theorem batch_threshold_invariant_witness :
    (∃ k, initState.batch_ping_num = 10 + 4 * k) ∧
    ∀ (snap : Snapshot) (r : Fin 2),
      initState.batch_ping_num ≤ (battle_strategy initState snap r).1.batch_ping_num :=
  batch_threshold_invariant initState Reachable.init

end TerminalAlgo
